import Mathlib

/-!
Verification development for the MediDocsAnalyzer repository.

The definitions below are a shallow embedding of the data reconciliation and
aggregation pipeline:
  * `service_medical_docs_processor.py` (merge / clean / dedupe),
  * `service_data_processor.py` (cell normalisation, date-range resolution),
  * `service_medical_docs_analyzer.py` (aggregation and report rendering).

Modelling conventions:
  * a polars `DataFrame` is a column-name list plus rows of nullable cells;
    cell values are abstracted by their `Utf8` form (`Option String`, `none`
    being polars `null`), since every claim observes values after the
    pipeline's `cast(pl.Utf8)`;
  * Python exceptions are `Option`/`Except` (`none` = an uncaught exception);
  * polars string comparison is byte-wise; we compare `Char` lists, which
    agrees with byte order on the ASCII data every claim touches.
-/

namespace MediDocs

/-- Key lookup in an association list, first match wins.  Models both Python
dict access and the polars `filter(col == k)` + `item()` idiom used on frames
whose key column is unique. -/
def lookupKV {α β : Type} [DecidableEq α] (a : α) : List (α × β) → Option β
  | [] => none
  | (k, v) :: l => if k = a then some v else lookupKV a l

/-- Structural de-duplication keeping the first row of every key class.
Models `DataFrame.unique(subset=...)` (polars keeps one arbitrary
representative per key; this embedding fixes the first one). -/
def uniqueByAux {α κ : Type} [DecidableEq κ] (k : α → κ) (seen : List κ) :
    List α → List α
  | [] => []
  | r :: rs =>
    if k r ∈ seen then uniqueByAux k seen rs
    else r :: uniqueByAux k (k r :: seen) rs

def uniqueBy {α κ : Type} [DecidableEq κ] (k : α → κ) (l : List α) : List α :=
  uniqueByAux k [] l

/-- A polars data frame: column names and rows of nullable Utf8 cells. -/
structure DF where
  cols : List String
  rows : List (List (Option String))
deriving DecidableEq

def DF.height (df : DF) : Nat := df.rows.length

/-- The cell of `row` (laid out in the order of `cols`) under column `c`;
`none` when the column is absent or the cell is null. -/
def cellVal (cols : List String) (row : List (Option String)) (c : String) :
    Option String :=
  (lookupKV c (cols.zip row)).getD none

/-- The cell as a string, with null read as the empty string (the pipeline's
`cast(pl.Utf8).fill_null("")` convention). -/
def strVal (cols : List String) (row : List (Option String)) (c : String) :
    String :=
  (cellVal cols row c).getD ""

/-- `target_df.select(source_df.columns)`: re-order a row of `fromCols` into
the column order `toCols`. -/
def reindexRow (fromCols toCols : List String) (row : List (Option String)) :
    List (Option String) :=
  toCols.map (fun c => cellVal fromCols row c)

/-- Lines 25-46 of `service_medical_docs_processor.py`: merge the source frame
with the target frame when the target file exists (`target = some t`), has
rows, and has the same column set; otherwise fall back to the source frame
alone.  The `cast(pl.Utf8)` steps are the identity in this embedding. -/
def mergeStep (source : DF) (target : Option DF) : DF :=
  match target with
  | none => source
  | some t =>
    if 0 < t.height then
      if source.cols.toFinset = t.cols.toFinset then
        ⟨source.cols, source.rows ++ t.rows.map (reindexRow t.cols source.cols)⟩
      else source
    else source

/-- `clean_and_standardize_dataframe` (`service_data_processor.py`, lines
238-258): empty-schema frames collapse to the empty frame, every cell is cast
to Utf8 and nulls become `""`. -/
def cleanStep (df : DF) : DF :=
  if df.cols.isEmpty then ⟨[], []⟩
  else ⟨df.cols, df.rows.map (fun row => row.map (fun v => some (v.getD "")))⟩

/-- Lines 51-56 of `service_medical_docs_processor.py`: drop rows whose
医師依頼日 (doctor request date) is empty; skipped when the column is absent. -/
def filterDoctorDateStep (df : DF) : DF :=
  if "医師依頼日" ∈ df.cols then
    ⟨df.cols, df.rows.filter (fun r => decide (strVal df.cols r "医師依頼日" ≠ ""))⟩
  else df

/-- Lines 58-63 of `service_medical_docs_processor.py`: drop rows whose
担当者名 (staff name) is empty; skipped when the column is absent. -/
def filterStaffStep (df : DF) : DF :=
  if "担当者名" ∈ df.cols then
    ⟨df.cols, df.rows.filter (fun r => decide (strVal df.cols r "担当者名" ≠ ""))⟩
  else df

def requiredColumns : List String := ["預り日", "患者ID", "文書名", "診療科", "医師名"]

/-- The composite key of a row restricted to the columns `subset`. -/
def rowKey (cols : List String) (subset : List String)
    (r : List (Option String)) : List (Option String) :=
  subset.map (fun c => cellVal cols r c)

/-- Lines 65-79 of `service_medical_docs_processor.py`: de-duplicate on the
five-column composite key; when some key columns are missing fall back to the
present subset, and skip entirely when none are present. -/
def dedupStep (df : DF) : DF :=
  let missing := requiredColumns.filter (fun c => decide (c ∉ df.cols))
  if missing.isEmpty then
    ⟨df.cols, uniqueBy (rowKey df.cols requiredColumns) df.rows⟩
  else
    let existing := requiredColumns.filter (fun c => decide (c ∈ df.cols))
    if existing.isEmpty then df
    else ⟨df.cols, uniqueBy (rowKey df.cols existing) df.rows⟩

/-- The clean / filter / dedupe chain applied to the merged frame (lines
48-79 of `service_medical_docs_processor.py`); the spec's `reconcile`. -/
def reconcileSteps (df : DF) : DF :=
  dedupStep (filterStaffStep (filterDoctorDateStep (cleanStep df)))

def processCore (source : DF) (target : Option DF) : DF :=
  reconcileSteps (mergeStep source target)

/-- `process_medical_documents` boundary: empty source is a reported failure;
otherwise the cleaned frame is written (`writeOk` abstracts the Excel writer's
success flag). -/
def processMedicalDocuments (source : DF) (target : Option DF)
    (writeOk : Bool) : Bool × Option DF :=
  if source.height = 0 then (false, none)
  else
    let df := processCore source target
    if writeOk then (true, some df) else (false, none)

/-! ### Lemmas about `uniqueByAux` -/

theorem uniqueByAux_subset {α κ : Type} [DecidableEq κ] (k : α → κ)
    (seen : List κ) (l : List α) :
    ∀ x ∈ uniqueByAux k seen l, x ∈ l := by
  induction l generalizing seen with
  | nil => intro x hx; simp [uniqueByAux] at hx
  | cons r rs ih =>
    intro x hx
    simp only [uniqueByAux] at hx
    by_cases h : k r ∈ seen
    · simp only [if_pos h] at hx
      exact List.mem_cons_of_mem _ (ih seen x hx)
    · simp only [if_neg h, List.mem_cons] at hx
      rcases hx with rfl | hx
      · exact List.mem_cons_self _ _
      · exact List.mem_cons_of_mem _ (ih _ x hx)

theorem uniqueByAux_key_not_seen {α κ : Type} [DecidableEq κ] (k : α → κ)
    (seen : List κ) (l : List α) :
    ∀ x ∈ uniqueByAux k seen l, k x ∉ seen := by
  induction l generalizing seen with
  | nil => intro x hx; simp [uniqueByAux] at hx
  | cons r rs ih =>
    intro x hx
    simp only [uniqueByAux] at hx
    by_cases h : k r ∈ seen
    · simp only [if_pos h] at hx
      exact ih seen x hx
    · simp only [if_neg h, List.mem_cons] at hx
      rcases hx with rfl | hx
      · exact h
      · intro hmem
        exact ih _ x hx (List.mem_cons_of_mem _ hmem)

theorem uniqueByAux_pairwise {α κ : Type} [DecidableEq κ] (k : α → κ)
    (seen : List κ) (l : List α) :
    List.Pairwise (fun a b => k a ≠ k b) (uniqueByAux k seen l) := by
  induction l generalizing seen with
  | nil => simp [uniqueByAux]
  | cons r rs ih =>
    simp only [uniqueByAux]
    by_cases h : k r ∈ seen
    · simp only [if_pos h]; exact ih seen
    · simp only [if_neg h]
      refine List.Pairwise.cons ?_ (ih _)
      intro y hy hkey
      have := uniqueByAux_key_not_seen k _ rs y hy
      exact this (by simp [hkey])

theorem uniqueByAux_covers {α κ : Type} [DecidableEq κ] (k : α → κ)
    (seen : List κ) (l : List α) :
    ∀ x ∈ l, k x ∈ seen ∨ ∃ y ∈ uniqueByAux k seen l, k y = k x := by
  induction l generalizing seen with
  | nil => intro x hx; simp at hx
  | cons r rs ih =>
    intro x hx
    simp only [uniqueByAux]
    rcases List.mem_cons.mp hx with rfl | hx
    · by_cases h : k x ∈ seen
      · exact Or.inl h
      · refine Or.inr ⟨x, ?_, rfl⟩
        simp [if_neg h]
    · by_cases h : k r ∈ seen
      · simp only [if_pos h]
        exact ih seen x hx
      · simp only [if_neg h]
        rcases ih (k r :: seen) x hx with hs | ⟨y, hy, hky⟩
        · rcases List.mem_cons.mp hs with heq | hs
          · exact Or.inr ⟨r, List.mem_cons_self _ _, heq.symm⟩
          · exact Or.inl hs
        · exact Or.inr ⟨y, List.mem_cons_of_mem _ hy, hky⟩

theorem uniqueByAux_fixpoint {α κ : Type} [DecidableEq κ] (k : α → κ)
    (seen : List κ) (l : List α)
    (hpw : List.Pairwise (fun a b => k a ≠ k b) l)
    (hseen : ∀ x ∈ l, k x ∉ seen) :
    uniqueByAux k seen l = l := by
  induction l generalizing seen with
  | nil => simp [uniqueByAux]
  | cons r rs ih =>
    have hr : k r ∉ seen := hseen r (List.mem_cons_self _ _)
    simp only [uniqueByAux, if_neg hr]
    congr 1
    refine ih _ (List.Pairwise.of_cons hpw) ?_
    intro x hx
    simp only [List.mem_cons]
    rintro (heq | hmem)
    · exact (List.pairwise_cons.mp hpw).1 x hx heq.symm
    · exact hseen x (List.mem_cons_of_mem _ hx) hmem

theorem uniqueBy_subset {α κ : Type} [DecidableEq κ] (k : α → κ) (l : List α) :
    ∀ x ∈ uniqueBy k l, x ∈ l :=
  uniqueByAux_subset k [] l

theorem uniqueBy_pairwise {α κ : Type} [DecidableEq κ] (k : α → κ)
    (l : List α) :
    List.Pairwise (fun a b => k a ≠ k b) (uniqueBy k l) :=
  uniqueByAux_pairwise k [] l

theorem uniqueBy_covers {α κ : Type} [DecidableEq κ] (k : α → κ) (l : List α) :
    ∀ x ∈ l, ∃ y ∈ uniqueBy k l, k y = k x := by
  intro x hx
  rcases uniqueByAux_covers k [] l x hx with h | h
  · simp at h
  · exact h

theorem uniqueBy_fixpoint {α κ : Type} [DecidableEq κ] (k : α → κ)
    (l : List α) (hpw : List.Pairwise (fun a b => k a ≠ k b) l) :
    uniqueBy k l = l :=
  uniqueByAux_fixpoint k [] l hpw (by simp)

/-! ### Structural lemmas about the pipeline steps -/

theorem cleanStep_cols (df : DF) (h : df.cols ≠ []) :
    (cleanStep df).cols = df.cols := by
  unfold cleanStep
  cases hc : df.cols with
  | nil => exact absurd hc h
  | cons a l => simp [hc]

theorem filterDoctorDateStep_cols (df : DF) :
    (filterDoctorDateStep df).cols = df.cols := by
  unfold filterDoctorDateStep; split <;> rfl

theorem filterStaffStep_cols (df : DF) :
    (filterStaffStep df).cols = df.cols := by
  unfold filterStaffStep; split <;> rfl

theorem dedupStep_cols (df : DF) : (dedupStep df).cols = df.cols := by
  simp only [dedupStep]
  split
  · rfl
  · split <;> rfl

theorem reconcileSteps_cols (df : DF) (h : df.cols ≠ []) :
    (reconcileSteps df).cols = df.cols := by
  unfold reconcileSteps
  rw [dedupStep_cols, filterStaffStep_cols, filterDoctorDateStep_cols,
    cleanStep_cols df h]

theorem dedupStep_rows_subset (df : DF) :
    ∀ r ∈ (dedupStep df).rows, r ∈ df.rows := by
  simp only [dedupStep]
  split
  · exact uniqueBy_subset _ _
  · split
    · intro r hr; exact hr
    · exact uniqueBy_subset _ _

theorem filterDoctorDateStep_rows_subset (df : DF) :
    ∀ r ∈ (filterDoctorDateStep df).rows, r ∈ df.rows := by
  unfold filterDoctorDateStep
  split
  · intro r hr; exact (List.mem_filter.mp hr).1
  · intro r hr; exact hr

theorem filterStaffStep_rows_subset (df : DF) :
    ∀ r ∈ (filterStaffStep df).rows, r ∈ df.rows := by
  unfold filterStaffStep
  split
  · intro r hr; exact (List.mem_filter.mp hr).1
  · intro r hr; exact hr

theorem filterDoctorDateStep_rows_prop (df : DF)
    (h : "医師依頼日" ∈ df.cols) :
    ∀ r ∈ (filterDoctorDateStep df).rows, strVal df.cols r "医師依頼日" ≠ "" := by
  unfold filterDoctorDateStep
  rw [if_pos h]
  intro r hr
  have := (List.mem_filter.mp hr).2
  simpa using this

theorem filterStaffStep_rows_prop (df : DF) (h : "担当者名" ∈ df.cols) :
    ∀ r ∈ (filterStaffStep df).rows, strVal df.cols r "担当者名" ≠ "" := by
  unfold filterStaffStep
  rw [if_pos h]
  intro r hr
  have := (List.mem_filter.mp hr).2
  simpa using this

theorem dedupStep_all_present (df : DF)
    (h : ∀ c ∈ requiredColumns, c ∈ df.cols) :
    dedupStep df = ⟨df.cols, uniqueBy (rowKey df.cols requiredColumns) df.rows⟩ := by
  have hmiss : requiredColumns.filter (fun c => decide (c ∉ df.cols)) = [] := by
    rw [List.filter_eq_nil_iff]
    intro c hc
    simpa using h c hc
  unfold dedupStep
  simp [hmiss]
  intro c hc hnot
  exact absurd (h c hc) hnot

theorem cleanStep_rows_allSome (df : DF) :
    ∀ r ∈ (cleanStep df).rows, ∀ v ∈ r, ∃ x, v = some x := by
  unfold cleanStep
  split
  · intro r hr; simp at hr
  · intro r hr v hv
    simp only [List.mem_map] at hr
    rcases hr with ⟨r0, _, rfl⟩
    simp only [List.mem_map] at hv
    rcases hv with ⟨v0, _, rfl⟩
    exact ⟨v0.getD "", rfl⟩

theorem cleanStep_fix (df : DF) (hcols : df.cols ≠ [])
    (hrows : ∀ r ∈ df.rows, ∀ v ∈ r, ∃ x, v = some x) :
    cleanStep df = df := by
  unfold cleanStep
  rw [if_neg (by simpa [List.isEmpty_iff] using hcols)]
  cases df with
  | mk cols rows =>
    simp only [DF.mk.injEq, true_and]
    refine List.map_congr_left ?_ |>.trans (List.map_id rows)
    intro r hr
    refine List.map_congr_left ?_ |>.trans (List.map_id r)
    intro v hv
    rcases hrows r hr v hv with ⟨x, rfl⟩
    rfl

/-! ### Claims about the merge-clean-dedupe engine -/

/-- C1: whenever all five composite-key columns (預り日, 患者ID, 文書名,
診療科, 医師名) are present in the merged frame's schema, any two rows of the
reconcile output differ on the composite key, every output row is one of the
cleaned input rows (one arbitrary representative), and every cleaned input
row's key is still represented — so key-equal rows collapse to exactly one
surviving row. -/
theorem reconcile_composite_key_unique (df : DF)
    (h : ∀ c ∈ requiredColumns, c ∈ df.cols) :
    (∀ r ∈ (reconcileSteps df).rows,
        r ∈ (filterStaffStep (filterDoctorDateStep (cleanStep df))).rows)
    ∧ List.Pairwise
        (fun r1 r2 =>
          rowKey df.cols requiredColumns r1 ≠ rowKey df.cols requiredColumns r2)
        (reconcileSteps df).rows
    ∧ (∀ r ∈ (filterStaffStep (filterDoctorDateStep (cleanStep df))).rows,
        ∃ r2 ∈ (reconcileSteps df).rows,
          rowKey df.cols requiredColumns r2 = rowKey df.cols requiredColumns r) := by
  have hcne : df.cols ≠ [] := by
    intro hnil
    have := h "預り日" (by simp [requiredColumns])
    rw [hnil] at this
    simp at this
  have hkcols :
      (filterStaffStep (filterDoctorDateStep (cleanStep df))).cols = df.cols := by
    rw [filterStaffStep_cols, filterDoctorDateStep_cols, cleanStep_cols df hcne]
  have hout : reconcileSteps df =
      ⟨df.cols,
        uniqueBy (rowKey df.cols requiredColumns)
          (filterStaffStep (filterDoctorDateStep (cleanStep df))).rows⟩ := by
    unfold reconcileSteps
    rw [dedupStep_all_present _ (by rw [hkcols]; exact h), hkcols]
  refine ⟨?_, ?_, ?_⟩
  · rw [hout]; exact uniqueBy_subset _ _
  · rw [hout]; exact uniqueBy_pairwise _ _
  · rw [hout]; exact uniqueBy_covers _ _

/-- C1 witness: a concrete frame with two key-identical rows (differing only
in the memo column) and one distinct row. -/
theorem reconcile_composite_key_unique_witness :
    (∀ c ∈ requiredColumns, c ∈ (DF.mk
        ["預り日", "患者ID", "文書名", "診療科", "医師名", "医師依頼日", "担当者名"]
        [[some "2025/01/10", some "1", some "docA", some "内科", some "医師A",
            some "2025/01/09", some "山田"],
         [some "2025/01/10", some "1", some "docA", some "内科", some "医師A",
            some "2025/01/09", some "佐藤"],
         [some "2025/01/11", some "2", some "docB", some "外科", some "医師B",
            some "2025/01/10", some "山田"]]).cols)
    ∧ ((∀ r ∈ (reconcileSteps (DF.mk
        ["預り日", "患者ID", "文書名", "診療科", "医師名", "医師依頼日", "担当者名"]
        [[some "2025/01/10", some "1", some "docA", some "内科", some "医師A",
            some "2025/01/09", some "山田"],
         [some "2025/01/10", some "1", some "docA", some "内科", some "医師A",
            some "2025/01/09", some "佐藤"],
         [some "2025/01/11", some "2", some "docB", some "外科", some "医師B",
            some "2025/01/10", some "山田"]])).rows,
        r ∈ (filterStaffStep (filterDoctorDateStep (cleanStep (DF.mk
        ["預り日", "患者ID", "文書名", "診療科", "医師名", "医師依頼日", "担当者名"]
        [[some "2025/01/10", some "1", some "docA", some "内科", some "医師A",
            some "2025/01/09", some "山田"],
         [some "2025/01/10", some "1", some "docA", some "内科", some "医師A",
            some "2025/01/09", some "佐藤"],
         [some "2025/01/11", some "2", some "docB", some "外科", some "医師B",
            some "2025/01/10", some "山田"]])))).rows)
      ∧ List.Pairwise
        (fun r1 r2 =>
          rowKey ["預り日", "患者ID", "文書名", "診療科", "医師名", "医師依頼日", "担当者名"]
              requiredColumns r1
            ≠ rowKey ["預り日", "患者ID", "文書名", "診療科", "医師名", "医師依頼日", "担当者名"]
              requiredColumns r2)
        (reconcileSteps (DF.mk
        ["預り日", "患者ID", "文書名", "診療科", "医師名", "医師依頼日", "担当者名"]
        [[some "2025/01/10", some "1", some "docA", some "内科", some "医師A",
            some "2025/01/09", some "山田"],
         [some "2025/01/10", some "1", some "docA", some "内科", some "医師A",
            some "2025/01/09", some "佐藤"],
         [some "2025/01/11", some "2", some "docB", some "外科", some "医師B",
            some "2025/01/10", some "山田"]])).rows
      ∧ (∀ r ∈ (filterStaffStep (filterDoctorDateStep (cleanStep (DF.mk
        ["預り日", "患者ID", "文書名", "診療科", "医師名", "医師依頼日", "担当者名"]
        [[some "2025/01/10", some "1", some "docA", some "内科", some "医師A",
            some "2025/01/09", some "山田"],
         [some "2025/01/10", some "1", some "docA", some "内科", some "医師A",
            some "2025/01/09", some "佐藤"],
         [some "2025/01/11", some "2", some "docB", some "外科", some "医師B",
            some "2025/01/10", some "山田"]])))).rows,
        ∃ r2 ∈ (reconcileSteps (DF.mk
        ["預り日", "患者ID", "文書名", "診療科", "医師名", "医師依頼日", "担当者名"]
        [[some "2025/01/10", some "1", some "docA", some "内科", some "医師A",
            some "2025/01/09", some "山田"],
         [some "2025/01/10", some "1", some "docA", some "内科", some "医師A",
            some "2025/01/09", some "佐藤"],
         [some "2025/01/11", some "2", some "docB", some "外科", some "医師B",
            some "2025/01/10", some "山田"]])).rows,
          rowKey ["預り日", "患者ID", "文書名", "診療科", "医師名", "医師依頼日", "担当者名"]
              requiredColumns r2
            = rowKey ["預り日", "患者ID", "文書名", "診療科", "医師名", "医師依頼日", "担当者名"]
              requiredColumns r)) :=
  ⟨by decide, reconcile_composite_key_unique _ (by decide)⟩

/-- C2: after stringify-and-fill, rows with an empty 医師依頼日 are dropped,
then rows with an empty 担当者名 are dropped, so when both columns are present
every surviving record has both fields non-empty; when a column is absent the
corresponding filter step is the identity (skipped with a warning) rather than
dropping all rows. -/
theorem mandatory_field_filtering (df : DF) :
    (("医師依頼日" ∈ df.cols ∧ "担当者名" ∈ df.cols) →
      ∀ r ∈ (reconcileSteps df).rows,
        strVal df.cols r "医師依頼日" ≠ "" ∧ strVal df.cols r "担当者名" ≠ "")
    ∧ ("医師依頼日" ∉ df.cols → filterDoctorDateStep df = df)
    ∧ ("担当者名" ∉ df.cols → filterStaffStep df = df) := by
  refine ⟨?_, ?_, ?_⟩
  · rintro ⟨hd, hs⟩ r hr
    have hcne : df.cols ≠ [] := by
      intro hnil; rw [hnil] at hd; simp at hd
    have hColsClean : (cleanStep df).cols = df.cols := cleanStep_cols df hcne
    have hColsD : (filterDoctorDateStep (cleanStep df)).cols = df.cols := by
      rw [filterDoctorDateStep_cols, hColsClean]
    have h1 : r ∈ (filterStaffStep (filterDoctorDateStep (cleanStep df))).rows :=
      dedupStep_rows_subset _ r hr
    have h2 : r ∈ (filterDoctorDateStep (cleanStep df)).rows :=
      filterStaffStep_rows_subset _ r h1
    constructor
    · have := filterDoctorDateStep_rows_prop (cleanStep df)
        (by rw [hColsClean]; exact hd) r h2
      rwa [hColsClean] at this
    · have := filterStaffStep_rows_prop (filterDoctorDateStep (cleanStep df))
        (by rw [hColsD]; exact hs) r h1
      rwa [hColsD] at this
  · intro hd; unfold filterDoctorDateStep; rw [if_neg hd]
  · intro hs; unfold filterStaffStep; rw [if_neg hs]

/-- C2 witness: a concrete frame in which one row has an empty doctor request
date, one an empty staff name and one a null staff name. -/
theorem mandatory_field_filtering_witness :
    ("医師依頼日" ∈ (DF.mk ["医師依頼日", "担当者名"]
        [[some "2025/01/09", some "山田"], [some "", some "佐藤"],
         [some "2025/01/10", some ""], [none, some "鈴木"]]).cols
      ∧ "担当者名" ∈ (DF.mk ["医師依頼日", "担当者名"]
        [[some "2025/01/09", some "山田"], [some "", some "佐藤"],
         [some "2025/01/10", some ""], [none, some "鈴木"]]).cols)
    ∧ (∀ r ∈ (reconcileSteps (DF.mk ["医師依頼日", "担当者名"]
        [[some "2025/01/09", some "山田"], [some "", some "佐藤"],
         [some "2025/01/10", some ""], [none, some "鈴木"]])).rows,
        strVal ["医師依頼日", "担当者名"] r "医師依頼日" ≠ ""
          ∧ strVal ["医師依頼日", "担当者名"] r "担当者名" ≠ "") :=
  ⟨by decide, (mandatory_field_filtering _).1 (by decide)⟩

/-- C7: reconcile is idempotent on its own output — running the
clean/filter/dedupe chain a second time, with the previous output as the sole
input and no new source, returns the output unchanged (no rows lost, no
duplicates introduced), provided the five composite-key columns are present. -/
theorem reconcile_idempotent (df : DF)
    (h : ∀ c ∈ requiredColumns, c ∈ df.cols) :
    processCore (reconcileSteps df) none = reconcileSteps df := by
  have hcne : df.cols ≠ [] := by
    intro hnil
    have := h "預り日" (by simp [requiredColumns])
    rw [hnil] at this
    simp at this
  have hColsClean : (cleanStep df).cols = df.cols := cleanStep_cols df hcne
  have hColsD : (filterDoctorDateStep (cleanStep df)).cols = df.cols := by
    rw [filterDoctorDateStep_cols, hColsClean]
  have hColsS :
      (filterStaffStep (filterDoctorDateStep (cleanStep df))).cols = df.cols := by
    rw [filterStaffStep_cols, hColsD]
  have hXcols : (reconcileSteps df).cols = df.cols := reconcileSteps_cols df hcne
  have hXchar : reconcileSteps df =
      ⟨df.cols,
        uniqueBy (rowKey df.cols requiredColumns)
          (filterStaffStep (filterDoctorDateStep (cleanStep df))).rows⟩ := by
    unfold reconcileSteps
    rw [dedupStep_all_present _ (by rw [hColsS]; exact h), hColsS]
  have hsubS : ∀ r ∈ (reconcileSteps df).rows,
      r ∈ (filterStaffStep (filterDoctorDateStep (cleanStep df))).rows :=
    fun r hr => dedupStep_rows_subset _ r hr
  have hsubD : ∀ r ∈ (reconcileSteps df).rows,
      r ∈ (filterDoctorDateStep (cleanStep df)).rows :=
    fun r hr => filterStaffStep_rows_subset _ r (hsubS r hr)
  have hsubC : ∀ r ∈ (reconcileSteps df).rows, r ∈ (cleanStep df).rows :=
    fun r hr => filterDoctorDateStep_rows_subset _ r (hsubD r hr)
  have h1 : cleanStep (reconcileSteps df) = reconcileSteps df := by
    refine cleanStep_fix _ (by rw [hXcols]; exact hcne) ?_
    intro r hr
    exact cleanStep_rows_allSome df r (hsubC r hr)
  have h2 : filterDoctorDateStep (reconcileSteps df) = reconcileSteps df := by
    unfold filterDoctorDateStep
    by_cases hd : "医師依頼日" ∈ (reconcileSteps df).cols
    · rw [if_pos hd]
      have hfix : (reconcileSteps df).rows.filter
          (fun r => decide (strVal (reconcileSteps df).cols r "医師依頼日" ≠ "")) =
          (reconcileSteps df).rows := by
        rw [List.filter_eq_self]
        intro r hr
        have hprop := filterDoctorDateStep_rows_prop (cleanStep df)
          (by rw [hColsClean, ← hXcols]; exact hd) r (hsubD r hr)
        rw [hColsClean, ← hXcols] at hprop
        simpa using hprop
      rw [hfix]
    · rw [if_neg hd]
  have h3 : filterStaffStep (reconcileSteps df) = reconcileSteps df := by
    unfold filterStaffStep
    by_cases hs : "担当者名" ∈ (reconcileSteps df).cols
    · rw [if_pos hs]
      have hfix : (reconcileSteps df).rows.filter
          (fun r => decide (strVal (reconcileSteps df).cols r "担当者名" ≠ "")) =
          (reconcileSteps df).rows := by
        rw [List.filter_eq_self]
        intro r hr
        have hprop := filterStaffStep_rows_prop (filterDoctorDateStep (cleanStep df))
          (by rw [hColsD, ← hXcols]; exact hs) r (hsubS r hr)
        rw [hColsD, ← hXcols] at hprop
        simpa using hprop
      rw [hfix]
    · rw [if_neg hs]
  have h4 : dedupStep (reconcileSteps df) = reconcileSteps df := by
    rw [dedupStep_all_present _ (by rw [hXcols]; exact h)]
    have hpw : List.Pairwise
        (fun a b => rowKey (reconcileSteps df).cols requiredColumns a ≠
          rowKey (reconcileSteps df).cols requiredColumns b)
        (reconcileSteps df).rows := by
      rw [hXcols]
      conv in (reconcileSteps df).rows => rw [hXchar]
      exact uniqueBy_pairwise _ _
    rw [uniqueBy_fixpoint _ _ hpw]
  show reconcileSteps (reconcileSteps df) = reconcileSteps df
  have hstep : reconcileSteps (reconcileSteps df) =
      dedupStep (filterStaffStep (filterDoctorDateStep
        (cleanStep (reconcileSteps df)))) := rfl
  rw [hstep, h1, h2, h3, h4]

/-- C7 witness: a concrete frame with duplicate keys and blank mandatory
fields; the second reconcile run leaves the first run's output unchanged. -/
theorem reconcile_idempotent_witness :
    (∀ c ∈ requiredColumns, c ∈ (DF.mk
        ["預り日", "患者ID", "文書名", "診療科", "医師名", "医師依頼日", "担当者名"]
        [[some "2025/02/01", some "7", some "診断書", some "外科", some "医師C",
            some "2025/01/30", some "田中"],
         [some "2025/02/01", some "7", some "診断書", some "外科", some "医師C",
            some "2025/01/31", some "田中"],
         [some "2025/02/02", some "8", some "紹介状", some "内科", some "医師D",
            some "", some "田中"]]).cols)
    ∧ processCore (reconcileSteps (DF.mk
        ["預り日", "患者ID", "文書名", "診療科", "医師名", "医師依頼日", "担当者名"]
        [[some "2025/02/01", some "7", some "診断書", some "外科", some "医師C",
            some "2025/01/30", some "田中"],
         [some "2025/02/01", some "7", some "診断書", some "外科", some "医師C",
            some "2025/01/31", some "田中"],
         [some "2025/02/02", some "8", some "紹介状", some "内科", some "医師D",
            some "", some "田中"]])) none
      = reconcileSteps (DF.mk
        ["預り日", "患者ID", "文書名", "診療科", "医師名", "医師依頼日", "担当者名"]
        [[some "2025/02/01", some "7", some "診断書", some "外科", some "医師C",
            some "2025/01/30", some "田中"],
         [some "2025/02/01", some "7", some "診断書", some "外科", some "医師C",
            some "2025/01/31", some "田中"],
         [some "2025/02/02", some "8", some "紹介状", some "内科", some "医師D",
            some "", some "田中"]]) :=
  ⟨by decide, reconcile_idempotent _ (by decide)⟩

/-- C9: when an existing (target) frame is supplied whose column set differs
from the source's, the run proceeds with the source records only and is not a
failure: the result equals what the pipeline produces from the source frame
alone. -/
theorem schema_mismatch_uses_source (source t : DF)
    (hs : 0 < source.height) (ht : 0 < t.height)
    (hcols : source.cols.toFinset ≠ t.cols.toFinset) :
    processMedicalDocuments source (some t) true
        = (true, some (reconcileSteps source))
    ∧ processMedicalDocuments source (some t) true
        = processMedicalDocuments source none true := by
  have h0 : ¬ source.height = 0 := by omega
  have hmerge : mergeStep source (some t) = source := by
    simp only [mergeStep]
    rw [if_pos ht, if_neg hcols]
  have hA : processMedicalDocuments source (some t) true
      = (true, some (reconcileSteps source)) := by
    unfold processMedicalDocuments processCore
    rw [if_neg h0, hmerge]
    simp
  have hB : processMedicalDocuments source none true
      = (true, some (reconcileSteps source)) := by
    unfold processMedicalDocuments processCore mergeStep
    rw [if_neg h0]
    simp
  exact ⟨hA, hA.trans hB.symm⟩

/-- C9 witness: concrete source and target frames with different column
sets. -/
theorem schema_mismatch_uses_source_witness :
    (0 < (DF.mk ["預り日", "備考"] [[some "2025/03/01", some "a"]]).height)
    ∧ (0 < (DF.mk ["預り日", "金額"] [[some "2025/03/02", some "b"]]).height)
    ∧ (DF.mk ["預り日", "備考"] [[some "2025/03/01", some "a"]]).cols.toFinset
        ≠ (DF.mk ["預り日", "金額"] [[some "2025/03/02", some "b"]]).cols.toFinset
    ∧ (processMedicalDocuments (DF.mk ["預り日", "備考"] [[some "2025/03/01", some "a"]])
        (some (DF.mk ["預り日", "金額"] [[some "2025/03/02", some "b"]])) true
      = (true, some (reconcileSteps (DF.mk ["預り日", "備考"] [[some "2025/03/01", some "a"]])))
    ∧ processMedicalDocuments (DF.mk ["預り日", "備考"] [[some "2025/03/01", some "a"]])
        (some (DF.mk ["預り日", "金額"] [[some "2025/03/02", some "b"]])) true
      = processMedicalDocuments (DF.mk ["預り日", "備考"] [[some "2025/03/01", some "a"]])
          none true) :=
  ⟨by decide, by decide, by decide,
    schema_mismatch_uses_source _ _ (by decide) (by decide) (by decide)⟩

/-! ### Date and string primitives (`service_data_processor.py`)

Digits, zero-padded rendering (CPython `strftime` on 4-digit years), a
`strptime`-style parser restricted to a single separator format, Python
`str.split`, and byte-wise string comparison as used by polars. -/

def digCh : Nat → Char
  | 0 => '0' | 1 => '1' | 2 => '2' | 3 => '3' | 4 => '4'
  | 5 => '5' | 6 => '6' | 7 => '7' | 8 => '8' | 9 => '9'
  | _ => '*'

def charDigit (c : Char) : Option Nat :=
  if ('0') ≤ c ∧ c ≤ ('9') then some (c.toNat - 48) else none

def digitsVal : List Char → Nat → Option Nat
  | [], acc => some acc
  | c :: cs, acc =>
    match charDigit c with
    | some d => digitsVal cs (acc * 10 + d)
    | none => none

/-- A `strptime` numeric field: non-empty, at most `maxLen` digits. -/
def parseDigits (maxLen : Nat) (l : List Char) : Option Nat :=
  if l.length = 0 ∨ maxLen < l.length then none else digitsVal l 0

/-- `%m`/`%d`-style zero-padded two-digit rendering. -/
def pad2c (n : Nat) : List Char := [digCh (n / 10 % 10), digCh (n % 10)]

/-- `%Y` rendering for 4-digit years (zero-padded). -/
def pad4c (n : Nat) : List Char :=
  [digCh (n / 1000 % 10), digCh (n / 100 % 10), digCh (n / 10 % 10), digCh (n % 10)]

def pad2s (n : Nat) : String := ⟨pad2c n⟩

def pad4s (n : Nat) : String := ⟨pad4c n⟩

def isLeap (y : Nat) : Bool := (y % 4 = 0 && y % 100 ≠ 0) || y % 400 = 0

def daysInMonth (y m : Nat) : Nat :=
  if m = 2 then (if isLeap y then 29 else 28)
  else if m = 4 ∨ m = 6 ∨ m = 9 ∨ m = 11 then 30 else 31

/-- Python `str.split(sep)` on a single-character separator. -/
def splitOnChar (sep : Char) : List Char → List (List Char)
  | [] => [[]]
  | c :: cs =>
    let r := splitOnChar sep cs
    if c = sep then [] :: r
    else
      match r with
      | [] => [[c]]
      | h :: t => (c :: h) :: t

/-- `datetime.strptime(s, "%Y<sep>%m<sep>%d")`: three numeric fields joined by
`sep`, full-match, with calendar validation (`datetime` range checks). -/
def parseYMDsep (sep : Char) (s : String) : Option (Nat × Nat × Nat) :=
  match splitOnChar sep s.data with
  | [ys, ms, ds] =>
    match parseDigits 4 ys, parseDigits 2 ms, parseDigits 2 ds with
    | some y, some m, some d =>
      if 1 ≤ y ∧ y ≤ 9999 ∧ 1 ≤ m ∧ m ≤ 12 ∧ 1 ≤ d ∧ d ≤ daysInMonth y m
      then some (y, m, d) else none
    | _, _, _ => none
  | _ => none

/-- `strftime("%Y/%m/%d")`. -/
def slashOf (y m d : Nat) : String :=
  ⟨pad4c y ++ (('/') :: (pad2c m ++ (('/') :: pad2c d)))⟩

/-- `strftime("%Y年%m月%d日")`. -/
def displayOf (y m d : Nat) : String :=
  pad4s y ++ "年" ++ pad2s m ++ "月" ++ pad2s d ++ "日"

/-- `strftime("%Y%m%d")`. -/
def fileOf (y m d : Nat) : String := ⟨pad4c y ++ pad2c m ++ pad2c d⟩

/-- Byte-wise (code-point-wise) lexicographic order, as polars compares Utf8
columns; identical to byte order on the ASCII dates compared here. -/
def charListLe : List Char → List Char → Bool
  | [], _ => true
  | _ :: _, [] => false
  | a :: as, b :: bs => if a = b then charListLe as bs else decide (a < b)

def strLe (a b : String) : Bool := charListLe a.data b.data

/-- `value.split()[0]`: Python whitespace split (whitespace modelled by the
space character, the only whitespace the pipeline produces); `none` is the
`IndexError` raised on an all-whitespace value. -/
def pyFirstTok (l : List Char) : Option (List Char) :=
  let t := (l.dropWhile (fun c => c = ' ')).takeWhile (fun c => c ≠ ' ')
  if t.isEmpty then none else some t

/-- `format_date_string` (`service_data_processor.py`, lines 48-72) on the
character list of a non-empty string: take the part before the first space,
and if it splits on `-` into exactly three parts, re-join them with `/`. -/
def formatDateStringCore (l : List Char) : Option (List Char) :=
  match (if (' ') ∈ l then pyFirstTok l else some l) with
  | none => none
  | some dp =>
    if ('-') ∈ dp then
      match splitOnChar '-' dp with
      | [ys, ms, ds] => some (ys ++ (('/') :: (ms ++ (('/') :: ds))))
      | _ => some dp
    else some dp

/-- `format_date_string` on a string value; `none` models the uncaught
`IndexError` on all-whitespace input (unreachable from `parse_date_to_formats`,
whose blank-check runs first). -/
def formatDateString (v : String) : Option String :=
  if v = "" then some v
  else (formatDateStringCore v.data).map (fun l => ⟨l⟩)

inductive RawVal
  | nullRaw
  | strRaw (s : String)
  | dateRaw (y m d : Nat)
deriving DecidableEq

structure DateFormats where
  raw : RawVal
  fileFormat : String
  displayFormat : String
deriving DecidableEq

/-- `value.replace("/", "")` (Python `str.replace` replaces all). -/
def stripAllSlashes (s : String) : String := ⟨s.data.filter (fun c => c ≠ '/')⟩

/-- `not value.strip()`. -/
def isBlankStr (s : String) : Bool := s.data.all (fun c => c = ' ')

/-- `parse_date_to_formats` (`service_data_processor.py`, lines 103-146) on a
nullable string value (the min/max values of a Utf8 date column).  The
`except ValueError` fallback keeps the raw value; the outer `none` is an
uncaught exception (never produced: the blank check precedes the split). -/
def parseDateToFormats : Option String → Option DateFormats
  | none => some ⟨RawVal.nullRaw, "", ""⟩
  | some v =>
    if isBlankStr v then some ⟨RawVal.strRaw "", "", ""⟩
    else
      match formatDateString v with
      | none => none
      | some ds =>
        match parseYMDsep '/' ds with
        | some (y, m, d) =>
          some ⟨RawVal.dateRaw y m d, fileOf y m d, displayOf y m d⟩
        | none => some ⟨RawVal.strRaw v, stripAllSlashes v, v⟩

/-! ### The date-range resolver (`filter_dataframe_by_date_range`) -/

/-- polars `str.replace("-", "/")`: replaces only the FIRST match. -/
def replaceFirstDash : List Char → List Char
  | [] => []
  | c :: cs => if c = ('-') then ('/') :: cs else c :: replaceFirstDash cs

/-- Lines 193-198: `when(col.str.contains("-")).then(col.str.replace("-", "/"))
.otherwise(col)` applied to one cell (null falls through unchanged). -/
def normalizeDashCell : Option String → Option String
  | none => none
  | some v => if ('-') ∈ v.data then some ⟨replaceFirstDash v.data⟩ else some v

/-- Lines 180-185: `when(col.is_not_null()).then(col).otherwise(None)` on one
cell. -/
def nullPassCell : Option String → Option String
  | some x => some x
  | none => none

def updateColCell (c : String) (f : Option String → Option String)
    (cols : List String) (row : List (Option String)) : List (Option String) :=
  (cols.zip row).map (fun p => if p.1 = c then f p.2 else p.2)

/-- `with_columns` rewriting the 預り日 column cell-wise. -/
def mapDepositCol (f : Option String → Option String) (df : DF) : DF :=
  ⟨df.cols, df.rows.map (updateColCell "預り日" f df.cols)⟩

/-- Lines 201-204: keep rows whose 預り日 lies in `[startStr, endStr]` under
polars Utf8 comparison; a null date compares to null and is dropped. -/
def rangeFilterStep (df : DF) (startStr endStr : String) : DF :=
  ⟨df.cols, df.rows.filter (fun r =>
    match cellVal df.cols r "預り日" with
    | some v => strLe startStr v && strLe v endStr
    | none => false)⟩

/-- Python truthiness of an optional string bound. -/
def truthy : Option String → Bool
  | none => false
  | some v => v != ""

/-- Lines 187-207: parse both bounds with `%Y-%m-%d`; on success normalize the
date column (first dash only!) and range-filter; a `ValueError`/`TypeError` is
caught and filtering is skipped. -/
def applyBounds (df : DF) (startS endS : Option String) : DF :=
  if truthy startS && truthy endS then
    match parseYMDsep '-' (startS.getD ""), parseYMDsep '-' (endS.getD "") with
    | some (sy, sm, sd), some (ey, em, ed) =>
      rangeFilterStep (mapDepositCol normalizeDashCell df)
        (slashOf sy sm sd) (slashOf ey em ed)
    | _, _ => df
  else df

structure RangeResult where
  df : DF
  startDateDisplay : String
  endDateDisplay : String
  fileDateRange : String
deriving DecidableEq

def noDataResult (df : DF) : RangeResult := ⟨df, "該当なし", "該当なし", "no_data"⟩

def minStrVal (v : String) (vs : List String) : String :=
  vs.foldl (fun a b => if strLe a b then a else b) v

def maxStrVal (v : String) (vs : List String) : String :=
  vs.foldl (fun a b => if strLe a b then b else a) v

/-- Lines 210-228: min/max of the non-null dates, formatted; `none` is the
exception path caught by `except Exception` (empty column or format failure
falls through to the final no-data return). -/
def minMaxSection (df : DF) : Option RangeResult :=
  match df.rows.filterMap (fun r => cellVal df.cols r "預り日") with
  | [] => none
  | v :: vs =>
    match parseDateToFormats (some (minStrVal v vs)),
        parseDateToFormats (some (maxStrVal v vs)) with
    | some mf, some xf =>
      some ⟨df, mf.displayFormat, xf.displayFormat,
        mf.fileFormat ++ "-" ++ xf.fileFormat⟩
    | _, _ => none

/-- The null-preserving 預り日 rewrite of lines 180-185. -/
def nullNormalizeStep (df : DF) : DF := mapDepositCol nullPassCell df

/-- `filter_dataframe_by_date_range` (`service_data_processor.py`, lines
149-235). -/
def filterDataframeByDateRange (dfO : Option DF) (startS endS : Option String) :
    RangeResult :=
  match dfO with
  | none => noDataResult ⟨[], []⟩
  | some df =>
    if df.cols.isEmpty ∨ df.height = 0 then noDataResult df
    else if "預り日" ∉ df.cols then noDataResult df
    else
      let df1 := nullNormalizeStep df
      let df2 := applyBounds df1 startS endS
      match minMaxSection df2 with
      | some r => r
      | none => noDataResult df2

/-! ### Claims about the date-range resolver -/

/-- C10: bound strings that do not parse as `YYYY-MM-DD` never raise — the
parse error is caught, the range filter is skipped entirely, and the resolver
proceeds exactly as if no bounds had been supplied (min/max displays and file
token over the unfiltered frame). -/
theorem bad_bounds_skip_filter (dfO : Option DF) (s e : String)
    (hs : s ≠ "") (he : e ≠ "")
    (hfail : parseYMDsep '-' s = none ∨ parseYMDsep '-' e = none) :
    filterDataframeByDateRange dfO (some s) (some e)
      = filterDataframeByDateRange dfO none none := by
  have happ : ∀ d : DF, applyBounds d (some s) (some e) = applyBounds d none none := by
    intro d
    have hcond : (truthy (some s) && truthy (some e)) = true := by
      simp [truthy, hs, he]
    have hno : applyBounds d none none = d := rfl
    rw [hno]
    unfold applyBounds
    rw [if_pos hcond]
    simp only [Option.getD_some]
    rcases hfail with hf | hf
    · rw [hf]
    · rw [hf]
      cases parseYMDsep '-' s with
      | none => rfl
      | some v => cases v with | mk a bc => cases bc with | mk b c => rfl
  cases dfO with
  | none => rfl
  | some df =>
    simp only [filterDataframeByDateRange, happ]

/-- C10 witness: slash-form bounds (which `%Y-%m-%d` rejects) on a concrete
frame behave exactly like absent bounds. -/
theorem bad_bounds_skip_filter_witness :
    ("2023/05/10" ≠ "") ∧ ("2023/05/20" ≠ "")
    ∧ (parseYMDsep '-' "2023/05/10" = none ∨ parseYMDsep '-' "2023/05/20" = none)
    ∧ filterDataframeByDateRange
        (some (DF.mk ["預り日"] [[some "2023/05/12"], [some "2023/05/25"]]))
        (some "2023/05/10") (some "2023/05/20")
      = filterDataframeByDateRange
        (some (DF.mk ["預り日"] [[some "2023/05/12"], [some "2023/05/25"]]))
        none none :=
  ⟨by decide, by decide, by decide,
    bad_bounds_skip_filter _ _ _ (by decide) (by decide) (by decide)⟩

/-- C3: evaluation at the claim's own example.  The range filter normalizes
only the FIRST hyphen (polars `str.replace`), so a date stored as
`2023-05-15` becomes `2023/05-15`, fails the lower-bound comparison against
`2023/05/10`, and is dropped — whereas the same row stored in slash form
survives.  This contradicts the claimed full normalization to `2023/05/15`. -/
theorem hyphen_date_dropped_eval :
    replaceFirstDash ("2023-05-15".data) = ("2023/05-15".data)
    ∧ (filterDataframeByDateRange
        (some (DF.mk ["預り日"] [[some "2023-05-15"]]))
        (some "2023-05-10") (some "2023-05-20")).df.rows = []
    ∧ (filterDataframeByDateRange
        (some (DF.mk ["預り日"] [[some "2023/05/15"]]))
        (some "2023-05-10") (some "2023-05-20")).df.rows
      = [[some "2023/05/15"]] := by
  refine ⟨by decide, by decide, by decide⟩

/-! ### Digit and split lemmas for the date round-trip -/

theorem digCh_props (k : Nat) (h : k < 10) :
    charDigit (digCh k) = some k
    ∧ digCh k ≠ ('-') ∧ digCh k ≠ ('/') ∧ digCh k ≠ (' ') := by
  interval_cases k <;> exact ⟨by decide, by decide, by decide, by decide⟩

theorem digCh_not_special (k : Nat) (h : k < 10) (ch : Char)
    (hch : ch = ('-') ∨ ch = ('/') ∨ ch = (' ')) : digCh k ≠ ch := by
  rcases hch with rfl | rfl | rfl
  · exact (digCh_props k h).2.1
  · exact (digCh_props k h).2.2.1
  · exact (digCh_props k h).2.2.2

theorem pad4c_not_special (y : Nat) (ch : Char)
    (hch : ch = ('-') ∨ ch = ('/') ∨ ch = (' ')) : ch ∉ pad4c y := by
  intro hm
  simp only [pad4c, List.mem_cons, List.not_mem_nil, or_false] at hm
  rcases hm with h | h | h | h <;>
    exact digCh_not_special _ (Nat.mod_lt _ (by norm_num)) ch hch h.symm

theorem pad2c_not_special (n : Nat) (ch : Char)
    (hch : ch = ('-') ∨ ch = ('/') ∨ ch = (' ')) : ch ∉ pad2c n := by
  intro hm
  simp only [pad2c, List.mem_cons, List.not_mem_nil, or_false] at hm
  rcases hm with h | h <;>
    exact digCh_not_special _ (Nat.mod_lt _ (by norm_num)) ch hch h.symm

theorem digitsVal_pad4 (y : Nat) (hy : y ≤ 9999) :
    digitsVal (pad4c y) 0 = some y := by
  have c1 := (digCh_props (y / 1000 % 10) (Nat.mod_lt _ (by norm_num))).1
  have c2 := (digCh_props (y / 100 % 10) (Nat.mod_lt _ (by norm_num))).1
  have c3 := (digCh_props (y / 10 % 10) (Nat.mod_lt _ (by norm_num))).1
  have c4 := (digCh_props (y % 10) (Nat.mod_lt _ (by norm_num))).1
  simp only [pad4c, digitsVal, c1, c2, c3, c4, Option.some.injEq]
  omega

theorem digitsVal_pad2 (n : Nat) (hn : n ≤ 99) :
    digitsVal (pad2c n) 0 = some n := by
  have c1 := (digCh_props (n / 10 % 10) (Nat.mod_lt _ (by norm_num))).1
  have c2 := (digCh_props (n % 10) (Nat.mod_lt _ (by norm_num))).1
  simp only [pad2c, digitsVal, c1, c2, Option.some.injEq]
  omega

theorem parseDigits_pad4 (y : Nat) (hy : y ≤ 9999) :
    parseDigits 4 (pad4c y) = some y := by
  have hc : ¬ ((pad4c y).length = 0 ∨ 4 < (pad4c y).length) := by simp [pad4c]
  unfold parseDigits
  rw [if_neg hc]
  exact digitsVal_pad4 y hy

theorem parseDigits_pad2 (n : Nat) (hn : n ≤ 99) :
    parseDigits 2 (pad2c n) = some n := by
  have hc : ¬ ((pad2c n).length = 0 ∨ 2 < (pad2c n).length) := by simp [pad2c]
  unfold parseDigits
  rw [if_neg hc]
  exact digitsVal_pad2 n hn

theorem splitOnChar_not_mem (sep : Char) (l : List Char) (h : sep ∉ l) :
    splitOnChar sep l = [l] := by
  induction l with
  | nil => rfl
  | cons c cs ih =>
    have hc : ¬ c = sep := by rintro rfl; exact h (List.mem_cons_self _ _)
    have hcs : sep ∉ cs := fun hm => h (List.mem_cons_of_mem _ hm)
    simp only [splitOnChar, ih hcs, if_neg hc]

theorem splitOnChar_append (sep : Char) (a b : List Char) (ha : sep ∉ a) :
    splitOnChar sep (a ++ sep :: b) = a :: splitOnChar sep b := by
  induction a with
  | nil => simp [splitOnChar]
  | cons c cs ih =>
    have hc : ¬ c = sep := by rintro rfl; exact ha (List.mem_cons_self _ _)
    have hcs : sep ∉ cs := fun hm => ha (List.mem_cons_of_mem _ hm)
    simp only [List.cons_append, splitOnChar, List.append_eq, ih hcs, if_neg hc]

theorem daysInMonth_le31 (y m : Nat) : daysInMonth y m ≤ 31 := by
  unfold daysInMonth
  split
  · split <;> norm_num
  · split <;> norm_num

theorem notMem_sepList (y m d : Nat) (sep ch : Char) (hsep : sep ≠ ch)
    (hch : ch = ('-') ∨ ch = ('/') ∨ ch = (' ')) :
    ch ∉ pad4c y ++ (sep :: (pad2c m ++ (sep :: pad2c d))) := by
  intro hm'
  rcases List.mem_append.mp hm' with h | h
  · exact pad4c_not_special y ch hch h
  · rcases List.mem_cons.mp h with h | h
    · exact hsep h.symm
    · rcases List.mem_append.mp h with h | h
      · exact pad2c_not_special m ch hch h
      · rcases List.mem_cons.mp h with h | h
        · exact hsep h.symm
        · exact pad2c_not_special d ch hch h

theorem strMk_ne_empty (l : List Char) (h : l ≠ []) : (⟨l⟩ : String) ≠ "" := by
  intro he
  apply h
  have hd2 : (⟨l⟩ : String).data = ("" : String).data := by rw [he]
  simpa using hd2

theorem formatDateStringCore_clean (l : List Char) (hsp : (' ') ∉ l)
    (hd : ('-') ∉ l) : formatDateStringCore l = some l := by
  simp [formatDateStringCore, hsp, hd]

theorem formatDateStringCore_dashed (a b c : List Char)
    (hsp : (' ') ∉ a ++ (('-') :: (b ++ (('-') :: c))))
    (hna : ('-') ∉ a) (hnb : ('-') ∉ b) (hnc : ('-') ∉ c) :
    formatDateStringCore (a ++ (('-') :: (b ++ (('-') :: c))))
      = some (a ++ (('/') :: (b ++ (('/') :: c)))) := by
  have hdm : ('-') ∈ a ++ (('-') :: (b ++ (('-') :: c))) := by simp
  have hsplit : splitOnChar '-' (a ++ (('-') :: (b ++ (('-') :: c)))) = [a, b, c] := by
    rw [splitOnChar_append _ _ _ hna, splitOnChar_append _ _ _ hnb,
      splitOnChar_not_mem _ _ hnc]
  simp [formatDateStringCore, hsp, hdm, hsplit]

theorem parseYMDsep_slash (y m d : Nat) (hy1 : 1 ≤ y) (hy : y ≤ 9999)
    (hm1 : 1 ≤ m) (hm : m ≤ 12) (hd1 : 1 ≤ d) (hdd : d ≤ daysInMonth y m) :
    parseYMDsep '/' ⟨pad4c y ++ (('/') :: (pad2c m ++ (('/') :: pad2c d)))⟩
      = some (y, m, d) := by
  have hda : (⟨pad4c y ++ (('/') :: (pad2c m ++ (('/') :: pad2c d)))⟩ : String).data
      = pad4c y ++ (('/') :: (pad2c m ++ (('/') :: pad2c d))) := rfl
  have hsplit : splitOnChar '/' (pad4c y ++ (('/') :: (pad2c m ++ (('/') :: pad2c d))))
      = [pad4c y, pad2c m, pad2c d] := by
    rw [splitOnChar_append _ _ _ (pad4c_not_special y _ (Or.inr (Or.inl rfl))),
      splitOnChar_append _ _ _ (pad2c_not_special m _ (Or.inr (Or.inl rfl))),
      splitOnChar_not_mem _ _ (pad2c_not_special d _ (Or.inr (Or.inl rfl)))]
  have hm99 : m ≤ 99 := by omega
  have hd99 : d ≤ 99 := by have := daysInMonth_le31 y m; omega
  simp [parseYMDsep, hda, hsplit, parseDigits_pad4 y hy, parseDigits_pad2 m hm99,
    parseDigits_pad2 d hd99, hy1, hy, hm1, hm, hd1, hdd]

/-- A zero-padded `YYYY<sep>MM<sep>DD` date string. -/
def dateStrWith (sep : Char) (y m d : Nat) : String :=
  ⟨pad4c y ++ (sep :: (pad2c m ++ (sep :: pad2c d)))⟩

/-- C8: for every valid zero-padded `YYYY-MM-DD` or `YYYY/MM/DD` date string,
normalizing it with the cell normalizer's date formatter
(`format_date_string`) and then rendering it with the date-range resolver's
display formatter (`parse_date_to_formats`) yields `YYYY年MM月DD日` for the
same year, month and day. -/
theorem normalizer_display_roundtrip (y m d : Nat) (sep : Char)
    (hy1 : 1000 ≤ y) (hy : y ≤ 9999) (hm1 : 1 ≤ m) (hm : m ≤ 12)
    (hd1 : 1 ≤ d) (hdd : d ≤ daysInMonth y m)
    (hsep : sep = ('-') ∨ sep = ('/')) :
    (formatDateString (dateStrWith sep y m d)).bind
        (fun t => (parseDateToFormats (some t)).map DateFormats.displayFormat)
      = some (pad4s y ++ "年" ++ pad2s m ++ "月" ++ pad2s d ++ "日") := by
  have hsepsp : sep ≠ (' ') := by rcases hsep with rfl | rfl <;> decide
  have hsp : (' ') ∉ pad4c y ++ (sep :: (pad2c m ++ (sep :: pad2c d))) :=
    notMem_sepList y m d sep ' ' hsepsp (Or.inr (Or.inr rfl))
  have hspS : (' ') ∉ pad4c y ++ (('/') :: (pad2c m ++ (('/') :: pad2c d))) :=
    notMem_sepList y m d '/' ' ' (by decide) (Or.inr (Or.inr rfl))
  have hndS : ('-') ∉ pad4c y ++ (('/') :: (pad2c m ++ (('/') :: pad2c d))) :=
    notMem_sepList y m d '/' '-' (by decide) (Or.inl rfl)
  have hcore : formatDateStringCore (pad4c y ++ (sep :: (pad2c m ++ (sep :: pad2c d))))
      = some (pad4c y ++ (('/') :: (pad2c m ++ (('/') :: pad2c d)))) := by
    rcases hsep with rfl | rfl
    · exact formatDateStringCore_dashed _ _ _ hsp
        (pad4c_not_special y _ (Or.inl rfl)) (pad2c_not_special m _ (Or.inl rfl))
        (pad2c_not_special d _ (Or.inl rfl))
    · exact formatDateStringCore_clean _ hsp hndS
  have hLne : (⟨pad4c y ++ (sep :: (pad2c m ++ (sep :: pad2c d)))⟩ : String) ≠ "" :=
    strMk_ne_empty _ (by simp [pad4c])
  have hSne : (⟨pad4c y ++ (('/') :: (pad2c m ++ (('/') :: pad2c d)))⟩ : String) ≠ "" :=
    strMk_ne_empty _ (by simp [pad4c])
  have h1 : formatDateString (dateStrWith sep y m d)
      = some ⟨pad4c y ++ (('/') :: (pad2c m ++ (('/') :: pad2c d)))⟩ := by
    simp only [formatDateString, dateStrWith, if_neg hLne]
    rw [hcore]
    rfl
  have hfsS : formatDateString ⟨pad4c y ++ (('/') :: (pad2c m ++ (('/') :: pad2c d)))⟩
      = some ⟨pad4c y ++ (('/') :: (pad2c m ++ (('/') :: pad2c d)))⟩ := by
    simp only [formatDateString, if_neg hSne]
    rw [formatDateStringCore_clean _ hspS hndS]
    rfl
  have hblank :
      ¬ (isBlankStr ⟨pad4c y ++ (('/') :: (pad2c m ++ (('/') :: pad2c d)))⟩ = true) := by
    intro hall
    unfold isBlankStr at hall
    rw [show (⟨pad4c y ++ (('/') :: (pad2c m ++ (('/') :: pad2c d)))⟩ : String).data
        = pad4c y ++ (('/') :: (pad2c m ++ (('/') :: pad2c d))) from rfl,
      List.all_eq_true] at hall
    have hmem : digCh (y / 1000 % 10)
        ∈ pad4c y ++ (('/') :: (pad2c m ++ (('/') :: pad2c d))) := by
      apply List.mem_append_left
      simp [pad4c]
    have := of_decide_eq_true (hall _ hmem)
    exact digCh_not_special _ (Nat.mod_lt _ (by norm_num)) ' '
      (Or.inr (Or.inr rfl)) this
  have h2 : parseDateToFormats
        (some ⟨pad4c y ++ (('/') :: (pad2c m ++ (('/') :: pad2c d)))⟩)
      = some ⟨RawVal.dateRaw y m d, fileOf y m d, displayOf y m d⟩ := by
    simp only [parseDateToFormats, if_neg hblank, hfsS,
      parseYMDsep_slash y m d (by omega) hy hm1 hm hd1 hdd]
  rw [h1]
  simp only [Option.some_bind, h2, Option.map_some']
  rfl

/-- C8 witness: the concrete date `2023-05-15`. -/
theorem normalizer_display_roundtrip_witness :
    (formatDateString (dateStrWith '-' 2023 5 15)).bind
        (fun t => (parseDateToFormats (some t)).map DateFormats.displayFormat)
      = some (pad4s 2023 ++ "年" ++ pad2s 5 ++ "月" ++ pad2s 15 ++ "日") :=
  normalizer_display_roundtrip 2023 5 15 '-' (by decide) (by decide) (by decide)
    (by decide) (by decide) (by decide) (Or.inl rfl)

/-! ### The report renderer (`output_excel`, `service_medical_docs_analyzer.py`)

The worksheet is modelled by the ordered list of cell writes the function
performs; the rendered sheet is "last write wins". -/

inductive CellV
  | s (v : String)
  | n (v : Nat)
deriving DecidableEq

/-- The value left in a cell after a sequence of writes (later writes win). -/
def lastWrite : List ((Nat × Nat) × CellV) → Nat × Nat → Option CellV
  | [], _ => none
  | w :: ws, p =>
    match lastWrite ws p with
    | some v => some v
    | none => if w.1 = p then some w.2 else none

/-- The per-department cells of one row (lines 101-114 and 122-130): iterate
`enumerate(departments, 2)`, skip the literal 合計 pseudo-department, write
`f dept` into column `c`. -/
def deptCellsRow (f : String → Nat) (r : Nat) : List String → Nat →
    List ((Nat × Nat) × CellV)
  | [], _ => []
  | dp :: ds, c =>
    if dp = "合計" then deptCellsRow f r ds (c + 1)
    else ((r, c), CellV.n (f dp)) :: deptCellsRow f r ds (c + 1)

/-- The running `staff_total` accumulated over the non-total departments. -/
def deptRowSum (f : String → Nat) : List String → Nat
  | [] => 0
  | dp :: ds => if dp = "合計" then deptRowSum f ds else f dp + deptRowSum f ds

/-- `grouped_data.filter(staff & dept)` + `.item()` or 0: the pair count of
(staff, dept).  Faithful for group-by results, whose keys are unique. -/
def pairCountFn (g : List ((String × String) × Nat)) (st : String) :
    String → Nat :=
  fun dp => (lookupKV (st, dp) g).getD 0

/-- `dept_totals.filter(dept)` + `.item()` or 0. -/
def deptTotalFn (dt : List (String × Nat)) : String → Nat :=
  fun dp => (lookupKV dp dt).getD 0

/-- `departments.index("合計")`. -/
def idxOfGoukei : List String → Nat
  | [] => 0
  | dp :: ds => if dp = "合計" then 0 else idxOfGoukei ds + 1

/-- `total_column_idx` when a 合計 column is configured (line 93-94). -/
def totalColIdx (depts : List String) : Option Nat :=
  if "合計" ∈ depts then some (idxOfGoukei depts + 2) else none

def sumCounts (l : List (String × Nat)) : Nat := (l.map Prod.snd).sum

/-- One staff row (lines 96-117): the name in column 1, the department cells,
then — if configured — the row total into the 合計 column. -/
def staffRowWrites (g : List ((String × String) × Nat)) (depts : List String)
    (totalIdx : Option Nat) (r : Nat) (st : String) :
    List ((Nat × Nat) × CellV) :=
  ((r, 1), CellV.s st) ::
    (deptCellsRow (pairCountFn g st) r depts 2 ++
      (match totalIdx with
       | some tc => [((r, tc), CellV.n (deptRowSum (pairCountFn g st) depts))]
       | none => []))

def staffRowsWrites (g : List ((String × String) × Nat)) (depts : List String)
    (totalIdx : Option Nat) : List String → Nat → List ((Nat × Nat) × CellV)
  | [], _ => []
  | st :: sts, r =>
    staffRowWrites g depts totalIdx r st
      ++ staffRowsWrites g depts totalIdx sts (r + 1)

def enumHeaderWrites : List String → Nat → List ((Nat × Nat) × CellV)
  | [], _ => []
  | dp :: ds, c => ((2, c), CellV.s dp) :: enumHeaderWrites ds (c + 1)

/-- Lines 88-91: the header row, written only when departments are
configured. -/
def headerWrites (depts : List String) : List ((Nat × Nat) × CellV) :=
  if 0 < depts.length then ((2, 1), CellV.s "氏名") :: enumHeaderWrites depts 2
  else []

/-- The full write sequence of `output_excel` (lines 86-134): title, header,
staff rows, total row, grand total. -/
def outputExcelWrites (staffMembers depts : List String)
    (g : List ((String × String) × Nat))
    (staffTotals deptTotals : List (String × Nat))
    (startDate endDate : String) : List ((Nat × Nat) × CellV) :=
  ((1, 1), CellV.s ("医療文書作成件数 " ++ startDate ++ "-" ++ endDate)) ::
    (headerWrites depts ++
      (staffRowsWrites g depts (totalColIdx depts) staffMembers 3 ++
        ((((staffMembers.length + 3, 1), CellV.s "合計") ::
            deptCellsRow (deptTotalFn deptTotals) (staffMembers.length + 3) depts 2) ++
          (match totalColIdx depts with
           | some tc =>
             [((staffMembers.length + 3, tc), CellV.n (sumCounts staffTotals))]
           | none => []))))

/-- The rendered sheet: cell contents after all writes. -/
def outputSheet (staffMembers depts : List String)
    (g : List ((String × String) × Nat))
    (staffTotals deptTotals : List (String × Nat))
    (startDate endDate : String) (p : Nat × Nat) : Option CellV :=
  lastWrite
    (outputExcelWrites staffMembers depts g staffTotals deptTotals startDate endDate) p

/-! ### Resolution lemmas for `lastWrite` -/

theorem lastWrite_eq_none (l : List ((Nat × Nat) × CellV)) (p : Nat × Nat)
    (h : ∀ w ∈ l, w.1 ≠ p) : lastWrite l p = none := by
  induction l with
  | nil => rfl
  | cons w ws ih =>
    simp only [lastWrite, ih (fun x hx => h x (List.mem_cons_of_mem _ hx))]
    rw [if_neg (h w (List.mem_cons_self _ _))]

theorem lastWrite_append_right_none (l1 l2 : List ((Nat × Nat) × CellV))
    (p : Nat × Nat) (h : lastWrite l2 p = none) :
    lastWrite (l1 ++ l2) p = lastWrite l1 p := by
  induction l1 with
  | nil => simpa using h
  | cons w l ih => simp only [List.cons_append, lastWrite, List.append_eq, ih]

theorem lastWrite_append_right_some (l1 l2 : List ((Nat × Nat) × CellV))
    (p : Nat × Nat) (v : CellV) (h : lastWrite l2 p = some v) :
    lastWrite (l1 ++ l2) p = some v := by
  induction l1 with
  | nil => simpa using h
  | cons w l ih => simp only [List.cons_append, lastWrite, List.append_eq, ih]

theorem lastWrite_append_left_none (l1 l2 : List ((Nat × Nat) × CellV))
    (p : Nat × Nat) (h : lastWrite l1 p = none) :
    lastWrite (l1 ++ l2) p = lastWrite l2 p := by
  induction l1 with
  | nil => rfl
  | cons w l ih =>
    cases hv : lastWrite l p with
    | some v =>
      simp only [lastWrite, hv] at h
      exact Option.noConfusion h
    | none =>
      have hw : ¬ w.1 = p := by
        intro heq
        simp only [lastWrite, hv, if_pos heq] at h
        exact Option.noConfusion h
      cases hv2 : lastWrite l2 p with
      | some v =>
        simp only [List.cons_append, lastWrite, List.append_eq, ih hv, hv2]
      | none =>
        simp only [List.cons_append, lastWrite, List.append_eq, ih hv, hv2,
          if_neg hw]

theorem lastWrite_cons_of_some (w : (Nat × Nat) × CellV)
    (l : List ((Nat × Nat) × CellV)) (p : Nat × Nat) (v : CellV)
    (h : lastWrite l p = some v) : lastWrite (w :: l) p = some v := by
  simp only [lastWrite, h]

theorem lastWrite_singleton_self (w : (Nat × Nat) × CellV) :
    lastWrite [w] w.1 = some w.2 := by
  simp [lastWrite]

/-! ### Position lemmas for the renderer blocks -/

theorem deptCellsRow_pos (f : String → Nat) (r : Nat) (ds : List String)
    (c : Nat) : ∀ w ∈ deptCellsRow f r ds c, w.1.1 = r ∧ c ≤ w.1.2 := by
  induction ds generalizing c with
  | nil => intro w hw; simp [deptCellsRow] at hw
  | cons dp ds ih =>
    intro w hw
    simp only [deptCellsRow] at hw
    by_cases hd : dp = "合計"
    · rw [if_pos hd] at hw
      have := ih (c + 1) w hw
      exact ⟨this.1, by omega⟩
    · rw [if_neg hd] at hw
      rcases List.mem_cons.mp hw with rfl | hw
      · exact ⟨rfl, Nat.le_refl c⟩
      · have := ih (c + 1) w hw
        exact ⟨this.1, by omega⟩

theorem deptCellsRow_at (f : String → Nat) (r : Nat) (ds : List String)
    (c j : Nat) (dp : String) (hj : ds.get? j = some dp) (hdp : dp ≠ "合計") :
    lastWrite (deptCellsRow f r ds c) (r, c + j) = some (CellV.n (f dp)) := by
  induction ds generalizing c j with
  | nil => simp at hj
  | cons d0 ds ih =>
    cases j with
    | zero =>
      have hd0 : d0 = dp := by simpa using hj
      subst hd0
      simp only [deptCellsRow, if_neg hdp]
      have hnone : lastWrite (deptCellsRow f r ds (c + 1)) (r, c) = none := by
        apply lastWrite_eq_none
        intro w hw heq
        have hpos := (deptCellsRow_pos f r ds (c + 1) w hw).2
        rw [heq] at hpos
        omega
      simp [lastWrite, hnone]
    | succ j =>
      have hj' : ds.get? j = some dp := by simpa using hj
      simp only [deptCellsRow]
      by_cases hd : d0 = "合計"
      · rw [if_pos hd]
        rw [show c + (j + 1) = c + 1 + j from by omega]
        exact ih (c + 1) j hj'
      · rw [if_neg hd]
        have hih := ih (c + 1) j hj'
        rw [show c + (j + 1) = c + 1 + j from by omega]
        simp only [lastWrite, hih]

theorem staffRowWrites_row (g : List ((String × String) × Nat))
    (depts : List String) (totalIdx : Option Nat) (r : Nat) (st : String) :
    ∀ w ∈ staffRowWrites g depts totalIdx r st, w.1.1 = r := by
  intro w hw
  simp only [staffRowWrites] at hw
  rcases List.mem_cons.mp hw with rfl | hw
  · rfl
  · rcases List.mem_append.mp hw with hw | hw
    · exact (deptCellsRow_pos _ _ _ _ w hw).1
    · cases totalIdx with
      | some tc =>
        simp only [List.mem_singleton] at hw
        rw [hw]
      | none => simp at hw

theorem staffRowsWrites_row_range (g : List ((String × String) × Nat))
    (depts : List String) (totalIdx : Option Nat) (sts : List String) (r : Nat) :
    ∀ w ∈ staffRowsWrites g depts totalIdx sts r,
      r ≤ w.1.1 ∧ w.1.1 < r + sts.length := by
  induction sts generalizing r with
  | nil => intro w hw; simp [staffRowsWrites] at hw
  | cons st sts ih =>
    intro w hw
    simp only [staffRowsWrites] at hw
    rcases List.mem_append.mp hw with hw | hw
    · have := staffRowWrites_row g depts totalIdx r st w hw
      rw [this]
      simp
    · have := ih (r + 1) w hw
      constructor
      · omega
      · simp only [List.length_cons]
        omega

theorem staffRowsWrites_at (g : List ((String × String) × Nat))
    (depts : List String) (totalIdx : Option Nat) (sts : List String)
    (r i : Nat) (st : String) (hi : sts.get? i = some st) (c : Nat) :
    lastWrite (staffRowsWrites g depts totalIdx sts r) (r + i, c)
      = lastWrite (staffRowWrites g depts totalIdx (r + i) st) (r + i, c) := by
  induction sts generalizing r i with
  | nil => simp at hi
  | cons s0 sts ih =>
    cases i with
    | zero =>
      have hs0 : s0 = st := by simpa using hi
      subst hs0
      simp only [staffRowsWrites]
      have hnone :
          lastWrite (staffRowsWrites g depts totalIdx sts (r + 1)) (r + 0, c)
            = none := by
        apply lastWrite_eq_none
        intro w hw heq
        have := (staffRowsWrites_row_range g depts totalIdx sts (r + 1) w hw).1
        rw [heq] at this
        omega
      rw [lastWrite_append_right_none _ _ _ hnone]
      simp only [Nat.add_zero]
    | succ i =>
      have hi' : sts.get? i = some st := by simpa using hi
      simp only [staffRowsWrites]
      have hl : lastWrite (staffRowWrites g depts totalIdx r s0) (r + (i + 1), c)
          = none := by
        apply lastWrite_eq_none
        intro w hw heq
        have := staffRowWrites_row g depts totalIdx r s0 w hw
        rw [heq] at this
        omega
      rw [lastWrite_append_left_none _ _ _ hl,
        show r + (i + 1) = r + 1 + i from by omega]
      exact ih (r + 1) i hi'

theorem idxOfGoukei_get (depts : List String) (h : "合計" ∈ depts) :
    depts.get? (idxOfGoukei depts) = some "合計" := by
  induction depts with
  | nil => simp at h
  | cons d ds ih =>
    by_cases hd : d = "合計"
    · simp [idxOfGoukei, hd]
    · have h' : "合計" ∈ ds := by
        rcases List.mem_cons.mp h with h0 | h0
        · exact absurd h0.symm hd
        · exact h0
      simp only [idxOfGoukei, if_neg hd]
      rw [List.get?_cons_succ]
      exact ih h'

theorem totalColIdx_ne_dept_col (depts : List String) (j : Nat) (dp : String)
    (hj : depts.get? j = some dp) (hdp : dp ≠ "合計") :
    ∀ tc, totalColIdx depts = some tc → tc ≠ 2 + j := by
  intro tc htc heq
  unfold totalColIdx at htc
  by_cases hg : "合計" ∈ depts
  · rw [if_pos hg] at htc
    injection htc with htc
    have hidx : idxOfGoukei depts = j := by omega
    have hget := idxOfGoukei_get depts hg
    rw [hidx, hj] at hget
    injection hget with hget
    exact hdp hget
  · rw [if_neg hg] at htc
    exact Option.noConfusion htc

/-- The staff-row department cell: value of the last write at `(3+i, 2+j)`. -/
theorem outputSheet_staff_dept_cell (staff depts : List String)
    (g : List ((String × String) × Nat)) (stots dtots : List (String × Nat))
    (sd ed : String) (i j : Nat) (st dp : String)
    (hi : staff.get? i = some st) (hj : depts.get? j = some dp)
    (hdp : dp ≠ "合計") :
    outputSheet staff depts g stots dtots sd ed (3 + i, 2 + j)
      = some (CellV.n (pairCountFn g st dp)) := by
  have hilen : i < staff.length := by
    rcases List.get?_eq_some.mp hi with ⟨h, _⟩
    exact h
  have hG : lastWrite (match totalColIdx depts with
      | some tc => [((staff.length + 3, tc), CellV.n (sumCounts stots))]
      | none => []) (3 + i, 2 + j) = none := by
    cases totalColIdx depts with
    | none => rfl
    | some tc =>
      apply lastWrite_eq_none
      intro w hw heq
      simp only [List.mem_singleton] at hw
      rw [hw] at heq
      have := congrArg Prod.fst heq
      simp only at this
      omega
  have hTR : lastWrite (((staff.length + 3, 1), CellV.s "合計") ::
      deptCellsRow (deptTotalFn dtots) (staff.length + 3) depts 2)
      (3 + i, 2 + j) = none := by
    apply lastWrite_eq_none
    intro w hw heq
    rcases List.mem_cons.mp hw with rfl | hw
    · have := congrArg Prod.fst heq
      simp only at this
      omega
    · have hr := (deptCellsRow_pos _ _ _ _ w hw).1
      rw [heq] at hr
      simp only at hr
      omega
  have hTRG := (lastWrite_append_right_none _ _ _ hG).trans hTR
  have hS : lastWrite (staffRowsWrites g depts (totalColIdx depts) staff 3)
      (3 + i, 2 + j) = some (CellV.n (pairCountFn g st dp)) := by
    rw [staffRowsWrites_at g depts (totalColIdx depts) staff 3 i st hi (2 + j)]
    simp only [staffRowWrites]
    have htb : lastWrite (match totalColIdx depts with
        | some tc => [((3 + i, tc), CellV.n (deptRowSum (pairCountFn g st) depts))]
        | none => []) (3 + i, 2 + j) = none := by
      cases htc : totalColIdx depts with
      | none => rfl
      | some tc =>
        apply lastWrite_eq_none
        intro w hw heq
        simp only [List.mem_singleton] at hw
        rw [hw] at heq
        have := congrArg Prod.snd heq
        simp only at this
        exact totalColIdx_ne_dept_col depts j dp hj hdp tc htc this
    have hcells := deptCellsRow_at (pairCountFn g st) (3 + i) depts 2 j dp hj hdp
    have hin := (lastWrite_append_right_none _ _ _ htb).trans hcells
    exact lastWrite_cons_of_some _ _ _ _ hin
  exact lastWrite_cons_of_some _ _ _ _
    (lastWrite_append_right_some _ _ _ _
      ((lastWrite_append_right_none _ _ _ hTRG).trans hS))

/-- The staff-row 合計 cell: the row total written last into the total
column. -/
theorem outputSheet_staff_total_cell (staff depts : List String)
    (g : List ((String × String) × Nat)) (stots dtots : List (String × Nat))
    (sd ed : String) (i : Nat) (st : String)
    (hi : staff.get? i = some st) (hg : "合計" ∈ depts) :
    outputSheet staff depts g stots dtots sd ed (3 + i, idxOfGoukei depts + 2)
      = some (CellV.n (deptRowSum (pairCountFn g st) depts)) := by
  have hilen : i < staff.length := by
    rcases List.get?_eq_some.mp hi with ⟨h, _⟩
    exact h
  have htc : totalColIdx depts = some (idxOfGoukei depts + 2) := by
    unfold totalColIdx
    rw [if_pos hg]
  have hG : lastWrite (match totalColIdx depts with
      | some tc => [((staff.length + 3, tc), CellV.n (sumCounts stots))]
      | none => []) (3 + i, idxOfGoukei depts + 2) = none := by
    rw [htc]
    apply lastWrite_eq_none
    intro w hw heq
    simp only [List.mem_singleton] at hw
    rw [hw] at heq
    have := congrArg Prod.fst heq
    simp only at this
    omega
  have hTR : lastWrite (((staff.length + 3, 1), CellV.s "合計") ::
      deptCellsRow (deptTotalFn dtots) (staff.length + 3) depts 2)
      (3 + i, idxOfGoukei depts + 2) = none := by
    apply lastWrite_eq_none
    intro w hw heq
    rcases List.mem_cons.mp hw with rfl | hw
    · have := congrArg Prod.fst heq
      simp only at this
      omega
    · have hr := (deptCellsRow_pos _ _ _ _ w hw).1
      rw [heq] at hr
      simp only at hr
      omega
  have hTRG := (lastWrite_append_right_none _ _ _ hG).trans hTR
  have hS : lastWrite (staffRowsWrites g depts (totalColIdx depts) staff 3)
      (3 + i, idxOfGoukei depts + 2)
      = some (CellV.n (deptRowSum (pairCountFn g st) depts)) := by
    rw [staffRowsWrites_at g depts (totalColIdx depts) staff 3 i st hi
      (idxOfGoukei depts + 2)]
    simp only [staffRowWrites, htc]
    have hsing : lastWrite
        [((3 + i, idxOfGoukei depts + 2),
          CellV.n (deptRowSum (pairCountFn g st) depts))]
        (3 + i, idxOfGoukei depts + 2)
        = some (CellV.n (deptRowSum (pairCountFn g st) depts)) :=
      lastWrite_singleton_self _
    have hin := lastWrite_append_right_some
      (deptCellsRow (pairCountFn g st) (3 + i) depts 2) _ _ _ hsing
    exact lastWrite_cons_of_some _ _ _ _ hin
  exact lastWrite_cons_of_some _ _ _ _
    (lastWrite_append_right_some _ _ _ _
      ((lastWrite_append_right_none _ _ _ hTRG).trans hS))

/-- The final-row department cell: `department_totals[dept]` or 0. -/
theorem outputSheet_total_row_dept_cell (staff depts : List String)
    (g : List ((String × String) × Nat)) (stots dtots : List (String × Nat))
    (sd ed : String) (j : Nat) (dp : String)
    (hj : depts.get? j = some dp) (hdp : dp ≠ "合計") :
    outputSheet staff depts g stots dtots sd ed (staff.length + 3, 2 + j)
      = some (CellV.n (deptTotalFn dtots dp)) := by
  have hG : lastWrite (match totalColIdx depts with
      | some tc => [((staff.length + 3, tc), CellV.n (sumCounts stots))]
      | none => []) (staff.length + 3, 2 + j) = none := by
    cases htc : totalColIdx depts with
    | none => rfl
    | some tc =>
      apply lastWrite_eq_none
      intro w hw heq
      simp only [List.mem_singleton] at hw
      rw [hw] at heq
      have := congrArg Prod.snd heq
      simp only at this
      exact totalColIdx_ne_dept_col depts j dp hj hdp tc htc this
  have hTRcells := deptCellsRow_at (deptTotalFn dtots) (staff.length + 3) depts
    2 j dp hj hdp
  have hTR := lastWrite_cons_of_some
    ((staff.length + 3, 1), CellV.s "合計") _ _ _ hTRcells
  have hTRG := (lastWrite_append_right_none _ _ _ hG).trans hTR
  exact lastWrite_cons_of_some _ _ _ _
    (lastWrite_append_right_some _ _ _ _
      (lastWrite_append_right_some _ _ _ _ hTRG))

/-- The grand-total cell: `sum(staff_totals)` written last. -/
theorem outputSheet_grand_total_cell (staff depts : List String)
    (g : List ((String × String) × Nat)) (stots dtots : List (String × Nat))
    (sd ed : String) (hg : "合計" ∈ depts) :
    outputSheet staff depts g stots dtots sd ed
        (staff.length + 3, idxOfGoukei depts + 2)
      = some (CellV.n (sumCounts stots)) := by
  have htc : totalColIdx depts = some (idxOfGoukei depts + 2) := by
    unfold totalColIdx
    rw [if_pos hg]
  have hG : lastWrite (match totalColIdx depts with
      | some tc => [((staff.length + 3, tc), CellV.n (sumCounts stots))]
      | none => []) (staff.length + 3, idxOfGoukei depts + 2)
      = some (CellV.n (sumCounts stots)) := by
    rw [htc]
    exact lastWrite_singleton_self _
  have hTRG := lastWrite_append_right_some
    (((staff.length + 3, 1), CellV.s "合計") ::
      deptCellsRow (deptTotalFn dtots) (staff.length + 3) depts 2) _ _ _ hG
  exact lastWrite_cons_of_some _ _ _ _
    (lastWrite_append_right_some _ _ _ _
      (lastWrite_append_right_some _ _ _ _ hTRG))

/-- The running row total is the sum of the non-total department values. -/
theorem deptRowSum_eq (f : String → Nat) (ds : List String) :
    deptRowSum f ds
      = ((ds.filter (fun x => decide (x ≠ "合計"))).map f).sum := by
  induction ds with
  | nil => rfl
  | cons dp ds ih =>
    by_cases hd : dp = "合計"
    · subst hd
      simp [deptRowSum, ih]
    · simp [deptRowSum, hd, ih]

/-- C5: in the rendered report, the staff-row department cell holds
`pair_counts[(staff, dept)]` or 0; the configured 合計 column of a staff row
holds the row sum over the non-total department columns, computed
independently of `pair_counts`; the final total row holds
`department_totals[dept]` or 0 per department, and `sum(staff_totals)` in the
total column.  (Nodup hypotheses: group-by outputs have unique keys, which the
renderer's `.item()` access requires.) -/
theorem report_matrix_cells (staff depts : List String)
    (g : List ((String × String) × Nat)) (stots dtots : List (String × Nat))
    (sd ed : String) (i j : Nat) (st dp : String)
    (hi : staff.get? i = some st) (hj : depts.get? j = some dp)
    (hdp : dp ≠ "合計") (hg : "合計" ∈ depts)
    (_hgk : (g.map Prod.fst).Nodup) (_hdk : (dtots.map Prod.fst).Nodup) :
    outputSheet staff depts g stots dtots sd ed (3 + i, 2 + j)
        = some (CellV.n ((lookupKV (st, dp) g).getD 0))
    ∧ outputSheet staff depts g stots dtots sd ed (3 + i, idxOfGoukei depts + 2)
        = some (CellV.n (deptRowSum (pairCountFn g st) depts))
    ∧ deptRowSum (pairCountFn g st) depts
        = ((depts.filter (fun x => decide (x ≠ "合計"))).map (pairCountFn g st)).sum
    ∧ outputSheet staff depts g stots dtots sd ed (staff.length + 3, 2 + j)
        = some (CellV.n ((lookupKV dp dtots).getD 0))
    ∧ outputSheet staff depts g stots dtots sd ed
          (staff.length + 3, idxOfGoukei depts + 2)
        = some (CellV.n (sumCounts stots)) :=
  ⟨outputSheet_staff_dept_cell staff depts g stots dtots sd ed i j st dp hi hj hdp,
   outputSheet_staff_total_cell staff depts g stots dtots sd ed i st hi hg,
   deptRowSum_eq (pairCountFn g st) depts,
   outputSheet_total_row_dept_cell staff depts g stots dtots sd ed j dp hj hdp,
   outputSheet_grand_total_cell staff depts g stots dtots sd ed hg⟩

/-- C5 witness: the spec's Scenario E — staff `[A, B]`, departments
`[合計, X]`, `pair_counts = {(A, X): 3}`. -/
theorem report_matrix_cells_witness :
    (["A", "B"].get? 0 = some "A") ∧ (["合計", "X"].get? 1 = some "X")
    ∧ ("X" ≠ "合計") ∧ ("合計" ∈ ["合計", "X"])
    ∧ (outputSheet ["A", "B"] ["合計", "X"] [(("A", "X"), 3)] [("A", 3)]
          [("X", 3)] "s" "e" (3 + 0, 2 + 1)
        = some (CellV.n ((lookupKV ("A", "X") [(("A", "X"), 3)]).getD 0))
      ∧ outputSheet ["A", "B"] ["合計", "X"] [(("A", "X"), 3)] [("A", 3)]
          [("X", 3)] "s" "e" (3 + 0, idxOfGoukei ["合計", "X"] + 2)
        = some (CellV.n
            (deptRowSum (pairCountFn [(("A", "X"), 3)] "A") ["合計", "X"]))
      ∧ deptRowSum (pairCountFn [(("A", "X"), 3)] "A") ["合計", "X"]
        = (((["合計", "X"] : List String).filter (fun x => decide (x ≠ "合計"))).map
            (pairCountFn [(("A", "X"), 3)] "A")).sum
      ∧ outputSheet ["A", "B"] ["合計", "X"] [(("A", "X"), 3)] [("A", 3)]
          [("X", 3)] "s" "e" ((["A", "B"] : List String).length + 3, 2 + 1)
        = some (CellV.n ((lookupKV "X" [("X", 3)]).getD 0))
      ∧ outputSheet ["A", "B"] ["合計", "X"] [(("A", "X"), 3)] [("A", 3)]
          [("X", 3)] "s" "e"
          ((["A", "B"] : List String).length + 3, idxOfGoukei ["合計", "X"] + 2)
        = some (CellV.n (sumCounts [("A", 3)]))) :=
  ⟨by decide, by decide, by decide, by decide,
    report_matrix_cells ["A", "B"] ["合計", "X"] [(("A", "X"), 3)] [("A", 3)]
      [("X", 3)] "s" "e" 0 1 "A" "X" (by decide) (by decide) (by decide)
      (by decide) (by decide) (by decide)⟩

/-! ### The aggregation engine (`analyze_medical_documents`, lines 31-48) -/

/-- polars `group_by` + `len`: one entry per distinct key with its count. -/
def groupCounts {α : Type} [DecidableEq α] (l : List α) : List (α × Nat) :=
  l.dedup.map (fun a => (a, l.count a))

def insertByLe {α : Type} (le : α → α → Bool) (a : α) : List α → List α
  | [] => [a]
  | b :: bs => if le a b then a :: b :: bs else b :: insertByLe le a bs

/-- A stable sort (insertion sort) used to model polars `sort`. -/
def sortByLe {α : Type} (le : α → α → Bool) : List α → List α
  | [] => []
  | a :: as => insertByLe le a (sortByLe le as)

/-- `staff_totals` (lines 38-42): drop null staff names, group by staff name,
count, sort ascending by name. -/
def staffTotalsOf (col : List (Option String)) : List (String × Nat) :=
  sortByLe (fun a b => strLe a.1 b.1) (groupCounts (col.filterMap id))

/-- `dept_totals` (lines 44-48): drop null departments, group, count, sort by
count descending. -/
def deptTotalsOf (col : List (Option String)) : List (String × Nat) :=
  sortByLe (fun a b => decide (b.2 ≤ a.2)) (groupCounts (col.filterMap id))

/-- `grouped` (lines 32-36): records with both staff and department non-null,
grouped by the pair. -/
def pairColValues (df : DF) : List (String × String) :=
  df.rows.filterMap (fun r =>
    match cellVal df.cols r "担当者名", cellVal df.cols r "診療科" with
    | some a, some b => some (a, b)
    | _, _ => none)

def groupedPairsOf (df : DF) : List ((String × String) × Nat) :=
  groupCounts (pairColValues df)

def colValues (df : DF) (c : String) : List (Option String) :=
  df.rows.map (fun r => cellVal df.cols r c)

theorem sumCounts_insertByLe {α : Type} (le : (α × Nat) → (α × Nat) → Bool)
    (a : α × Nat) (l : List (α × Nat)) :
    ((insertByLe le a l).map Prod.snd).sum = a.2 + (l.map Prod.snd).sum := by
  induction l with
  | nil => simp [insertByLe]
  | cons b bs ih =>
    unfold insertByLe
    by_cases h : le a b = true
    · rw [if_pos h]
      simp
    · rw [if_neg h]
      simp only [List.map_cons, List.sum_cons, ih]
      omega

theorem sumCounts_sortByLe {α : Type} (le : (α × Nat) → (α × Nat) → Bool)
    (l : List (α × Nat)) :
    ((sortByLe le l).map Prod.snd).sum = (l.map Prod.snd).sum := by
  induction l with
  | nil => rfl
  | cons a as ih =>
    simp only [sortByLe, sumCounts_insertByLe, ih, List.map_cons, List.sum_cons]

theorem sumCounts_groupCounts {α : Type} [DecidableEq α] (l : List α) :
    ((groupCounts l).map Prod.snd).sum = l.length := by
  unfold groupCounts
  rw [List.map_map]
  exact List.sum_map_count_dedup_eq_length l

theorem length_filterMap_id (col : List (Option String)) :
    (col.filterMap id).length = col.countP (fun v => v.isSome) := by
  induction col with
  | nil => rfl
  | cons v vs ih =>
    cases v with
    | none => simpa [List.countP_cons] using ih
    | some x => simpa [List.countP_cons] using ih

/-- C6: the sum of the `staff_totals` counts equals the number of records
with a non-null 担当者名, and this same number is the grand total written
into the report's total cell. -/
theorem staff_totals_sum_grand_total (col : List (Option String))
    (staff depts : List String) (g : List ((String × String) × Nat))
    (dtots : List (String × Nat)) (sd ed : String) (hg : "合計" ∈ depts) :
    sumCounts (staffTotalsOf col) = col.countP (fun v => v.isSome)
    ∧ outputSheet staff depts g (staffTotalsOf col) dtots sd ed
        (staff.length + 3, idxOfGoukei depts + 2)
      = some (CellV.n (col.countP (fun v => v.isSome))) := by
  have h1 : sumCounts (staffTotalsOf col) = col.countP (fun v => v.isSome) := by
    unfold sumCounts staffTotalsOf
    rw [sumCounts_sortByLe, sumCounts_groupCounts, length_filterMap_id]
  refine ⟨h1, ?_⟩
  have h2 := outputSheet_grand_total_cell staff depts g (staffTotalsOf col)
    dtots sd ed hg
  rw [h2, h1]

/-- C6 witness: four records, one with a null staff name. -/
theorem staff_totals_sum_grand_total_witness :
    ("合計" ∈ ["合計", "内科"])
    ∧ (sumCounts (staffTotalsOf [some "山田", none, some "佐藤", some "山田"])
        = ([some "山田", none, some "佐藤", some "山田"] : List (Option String)).countP
            (fun v => v.isSome)
      ∧ outputSheet ["山田", "佐藤"] ["合計", "内科"] []
          (staffTotalsOf [some "山田", none, some "佐藤", some "山田"]) [] "s" "e"
          ((["山田", "佐藤"] : List String).length + 3,
            idxOfGoukei ["合計", "内科"] + 2)
        = some (CellV.n
            (([some "山田", none, some "佐藤", some "山田"] : List (Option String)).countP
              (fun v => v.isSome)))) :=
  ⟨by decide,
    staff_totals_sum_grand_total [some "山田", none, some "佐藤", some "山田"]
      ["山田", "佐藤"] ["合計", "内科"] [] [] "s" "e" (by decide)⟩

/-! ### The report-pipeline boundary (`MedicalDocsAnalyzer.run_analysis`)

`read_excel_to_dataframe` catches every exception (including the
`FileNotFoundError` of a missing workbook) and returns an empty frame;
`analyze_medical_documents` then takes its no-data path (printing a message
and returning `None`), and its own `except FileNotFoundError` / `except
Exception` handlers swallow anything else.  Consequently
`analyze_medical_documents` never raises, so the `except` branches of
`run_analysis` (which would return a false flag) are unreachable and
`run_analysis` returns `(True, "集計が完了しました。")` for every outcome. -/

inductive AnalyzeOutcome
  | noData
  | reportWritten (writes : List ((Nat × Nat) × CellV))
deriving DecidableEq

/-- `read_excel_to_dataframe` (`service_excel_handler.py`, lines 71-89):
a missing or unreadable workbook yields the empty frame, not an exception. -/
def readExcelToDataframe (file : Option DF) : DF :=
  match file with
  | some df => df
  | none => ⟨[], []⟩

/-- `analyze_medical_documents` (`service_medical_docs_analyzer.py`, lines
12-64): read, check the required columns, resolve the date range, aggregate,
render.  Total — every internal failure is absorbed. -/
def analyzeMedicalDocuments (dbFile : Option DF) (startS endS : Option String)
    (staffMembers depts : List String) : AnalyzeOutcome :=
  let df := readExcelToDataframe dbFile
  if df.height = 0 ∨ "担当者名" ∉ df.cols ∨ "診療科" ∉ df.cols
      ∨ "預り日" ∉ df.cols then
    AnalyzeOutcome.noData
  else
    let res := filterDataframeByDateRange (some df) startS endS
    AnalyzeOutcome.reportWritten
      (outputExcelWrites staffMembers depts (groupedPairsOf res.df)
        (staffTotalsOf (colValues res.df "担当者名"))
        (deptTotalsOf (colValues res.df "診療科"))
        res.startDateDisplay res.endDateDisplay)

/-- `MedicalDocsAnalyzer.run_analysis` (lines 148-160): since
`analyze_medical_documents` is total, both outcomes reach the success
return. -/
def runAnalysis (dbFile : Option DF) (startS endS : Option String)
    (staffMembers depts : List String) : Bool × String :=
  match analyzeMedicalDocuments dbFile startS endS staffMembers depts with
  | AnalyzeOutcome.noData => (true, "集計が完了しました。")
  | AnalyzeOutcome.reportWritten _ => (true, "集計が完了しました。")

/-- C4 counterexample: with the source database file missing, `run_analysis`
returns a TRUE success flag with the completion message — not the claimed
false flag. -/
theorem missing_db_reports_success :
    runAnalysis none (some "2025-01-01") (some "2025-01-31") ["山田"]
        ["合計", "内科"]
      = (true, "集計が完了しました。") := by
  decide

/-- C4 (amended): when the source database file does not exist, the failure
is absorbed before the pipeline boundary — the reader returns an empty frame,
`analyze_medical_documents` takes its no-data path (printing, never raising),
and `run_analysis` returns a TRUE success flag with the completion message
for every choice of bounds and configuration. -/
theorem missing_db_absorbed (startS endS : Option String)
    (staffMembers depts : List String) :
    analyzeMedicalDocuments none startS endS staffMembers depts
        = AnalyzeOutcome.noData
    ∧ runAnalysis none startS endS staffMembers depts
        = (true, "集計が完了しました。") := by
  have h1 : analyzeMedicalDocuments none startS endS staffMembers depts
      = AnalyzeOutcome.noData := by
    unfold analyzeMedicalDocuments readExcelToDataframe
    rw [if_pos]
    exact Or.inl rfl
  refine ⟨h1, ?_⟩
  unfold runAnalysis
  rw [h1]

end MediDocs
